import Mathlib

/-!
Verification of the corev CLI's configuration addressing and validation layer.

Strings are modelled as `List Char` (`Str`), file paths as strings joined with
`'/'` (modelling Node's `path.join` on plain, separator-free segments), and the
local filesystem state of a single file as a `FileState` (absent, present but
not valid JSON, or a parsed JSON value).  Each command (push, pull, checkout,
revert, init) is embedded as a pure function from its inputs — the parsed
`.corevrc.json` record, the file contents, the remote response, the interactive
answer — to a record of its observable effects (the request URL, the files
written, the warnings printed, the failure reported, the exit code).
-/

set_option maxHeartbeats 1000000

namespace Corev

/-- Strings modelled as lists of characters. -/
abbrev Str := List Char

/-- Line terminators, which `.` in a JavaScript regular expression does not match. -/
def isLineTerm (c : Char) : Bool :=
  c == '\n' || c == '\r' || c == '\u2028' || c == '\u2029'

/-- Every character of `s` can be matched by `.` in a JavaScript regex. -/
def noTerm (s : Str) : Bool := s.all (fun c => !(isLineTerm c))

/-- The configuration root directory (`path.resolve('configs')` in the source;
the working-directory prefix added by `resolve` is irrelevant to basenames and
to relative layout, so the root is modelled as the segment `configs`). -/
def CONFIG_DIR : Str := "configs".data

/-- Models `path.join(a, b)` for plain segments (no separators, not `.`/`..`). -/
def pjoin (a b : Str) : Str := a ++ '/' :: b

/-- The filename `<project>@<version>.json` used throughout the source. -/
def configFilename (project version : Str) : Str :=
  project ++ '@' :: (version ++ ".json".data)

/-- The base directory chosen by `getConfigPath`/`saveConfig`: the source tests
`env ?` (JavaScript truthiness, so the empty string behaves like absence). -/
def baseDirOf (project : Str) (env : Option Str) : Str :=
  match env with
  | some e =>
      if e = [] then pjoin CONFIG_DIR project
      else pjoin (pjoin (pjoin CONFIG_DIR project) "env".data) e
  | none => pjoin CONFIG_DIR project

/-- Embeds `getConfigPath` of `configService.ts`: the full path
`configs/<project>/<project>@<version>.json`, or
`configs/<project>/env/<env>/<project>@<version>.json` with an environment. -/
def getConfigPath (project version : Str) (env : Option Str) : Str :=
  pjoin (baseDirOf project env) (configFilename project version)

/-- Embeds Node's `path.basename` on slash-separated paths without trailing
separators: the suffix after the last `'/'`. -/
def basename (p : Str) : Str := (p.reverse.takeWhile (fun c => c != '/')).reverse

/-- Success condition of the regex `^(.+?)@(.+?)\.json$` at a split point:
`acc` holds the (reversed, accumulated) candidate project group before the
current `'@'`, `rest` the characters after it.  The attempt succeeds when the
project group is non-empty and `.`-matchable, the remainder ends in `.json`,
and the version group (the remainder minus that suffix) is non-empty and
`.`-matchable. -/
def atSplitOk (acc rest : Str) : Bool :=
  (acc != []) && noTerm acc && decide (6 ≤ rest.length) &&
    (rest.drop (rest.length - 5) == ".json".data) &&
    noTerm (rest.take (rest.length - 5))

/-- Lazy-matching scan for `^(.+?)@(.+?)\.json$`: try each `'@'` from the left
(the lazy project group extends over earlier `'@'`s whose attempt failed) and
return the groups of the first complete match. -/
def parseAux : Str → Str → Option (Str × Str)
  | _, [] => none
  | acc, c :: rest =>
    if c == '@' && atSplitOk acc rest then
      some (acc.reverse, rest.take (rest.length - 5))
    else
      parseAux (c :: acc) rest

/-- Embeds `parseFilename` of `configService.ts`: match the filename against
`^(.+?)@(.+?)\.json$` and return the `project` and `version` groups. -/
def parseFilename (filename : Str) : Option (Str × Str) := parseAux [] filename

/-- Alphanumeric-or-hyphen characters, the input alphabet of the round-trip law. -/
def isAlnumHyphen (c : Char) : Bool := c.isAlphanum || c == '-'

theorem alnumHyphen_ne_at {c : Char} (h : isAlnumHyphen c = true) : c ≠ '@' := by
  rintro rfl; revert h; decide

theorem alnumHyphen_ne_slash {c : Char} (h : isAlnumHyphen c = true) : c ≠ '/' := by
  rintro rfl; revert h; decide

theorem alnumHyphen_not_term {c : Char} (h : isAlnumHyphen c = true) :
    isLineTerm c = false := by
  cases hl : isLineTerm c with
  | false => rfl
  | true =>
    exfalso
    simp only [isLineTerm, Bool.or_eq_true, beq_iff_eq] at hl
    rcases hl with ((rfl | rfl) | rfl) | rfl <;> revert h <;> decide

theorem noTerm_of_alnumHyphen {s : Str} (h : s.all isAlnumHyphen = true) :
    noTerm s = true := by
  rw [noTerm, List.all_eq_true] at *
  intro c hc
  simp [alnumHyphen_not_term (h c hc)]

theorem takeWhile_append_all {p : Char → Bool} {l1 l2 : Str}
    (h : ∀ c ∈ l1, p c = true) :
    (l1 ++ l2).takeWhile p = l1 ++ l2.takeWhile p := by
  induction l1 with
  | nil => simp
  | cons c cs ih =>
    have hc : p c = true := h c (List.mem_cons_self c cs)
    simp only [List.cons_append, List.takeWhile_cons, hc, if_true]
    rw [ih (fun x hx => h x (List.mem_cons_of_mem _ hx))]

theorem basename_append {dir fn : Str} (h : ∀ c ∈ fn, c ≠ '/') :
    basename (pjoin dir fn) = fn := by
  unfold basename pjoin
  have hrev : (dir ++ '/' :: fn).reverse = fn.reverse ++ '/' :: dir.reverse := by
    simp [List.reverse_append]
  rw [hrev, takeWhile_append_all (p := fun c => c != '/')
    (fun c hc => by simp [h c (List.mem_reverse.mp hc)])]
  simp

theorem parseAux_skip {pre : Str} (rest acc : Str) (h : ∀ c ∈ pre, c ≠ '@') :
    parseAux acc (pre ++ rest) = parseAux (pre.reverse ++ acc) rest := by
  induction pre generalizing acc with
  | nil => simp
  | cons c cs ih =>
    have hc : (c == '@') = false := by
      simp [h c (List.mem_cons_self c cs)]
    have hstep : parseAux acc ((c :: cs) ++ rest) = parseAux (c :: acc) (cs ++ rest) := by
      simp [parseAux, hc]
    rw [hstep, ih _ (fun x hx => h x (List.mem_cons_of_mem _ hx))]
    simp

/-- JSON values, the document universe of the validator and the store. -/
inductive Json where
  | null
  | bool (b : Bool)
  | num (n : Int)
  | str (s : Str)
  | arr (elems : List Json)
  | obj (fields : List (Str × Json))

/-- Tests whether a JSON value is a string (schema type `string`). -/
def Json.isStr : Json → Bool
  | .str _ => true
  | _ => false

/-- Tests whether a JSON value is an object (schema type `object`). -/
def Json.isObj : Json → Bool
  | .obj _ => true
  | _ => false

/-- Property access on a parsed JSON object (keys are unique after parsing). -/
def getField : List (Str × Json) → Str → Option Json
  | [], _ => none
  | (k, v) :: rest, key => if k = key then some v else getField rest key

/-- Holds when an absent field is allowed, or a present field satisfies `p`. -/
def optSat (p : Json → Bool) : Option Json → Bool
  | none => true
  | some v => p v

def nameK : Str := "name".data

def verK : Str := "version".data

def cfgK : Str := "config".data

/-- The `required` list of `configSchema.ts`. -/
def requiredKeys : List Str := [nameK, verK, cfgK]

/-- An AJV `ErrorObject`, reduced to the two fields the source reads. -/
structure AjvError where
  instancePath : Str
  message : Str
deriving DecidableEq

/-- Errors for the schema's `required` keyword: one per missing key, located at
the root (`instancePath` is the empty pointer). -/
def requiredErrors (fs : List (Str × Json)) : List AjvError :=
  requiredKeys.filterMap fun k =>
    if (getField fs k).isSome then none
    else some ⟨[], "must have required property \x27".data ++ k ++ "\x27".data⟩

/-- Errors for `additionalProperties: false`: one per extra top-level key,
located at the root. -/
def additionalErrors (fs : List (Str × Json)) : List AjvError :=
  fs.filterMap fun kv =>
    if kv.1 ∈ requiredKeys then none
    else some ⟨[], "must NOT have additional properties".data⟩

/-- Error for a present property violating `type: string`, reported at the
property's pointer. -/
def strPropErr (fs : List (Str × Json)) (k : Str) : List AjvError :=
  match getField fs k with
  | some v => if v.isStr then [] else [⟨'/' :: k, "must be string".data⟩]
  | none => []

/-- Error for a present property violating `type: object`, reported at the
property's pointer. -/
def objPropErr (fs : List (Str × Json)) (k : Str) : List AjvError :=
  match getField fs k with
  | some v => if v.isObj then [] else [⟨'/' :: k, "must be object".data⟩]
  | none => []

/-- Errors for the `properties` keyword of `configSchema`: `name` and `version`
must be strings when present, `config` an object when present. -/
def propertyErrors (fs : List (Str × Json)) : List AjvError :=
  strPropErr fs nameK ++ strPropErr fs verK ++ objPropErr fs cfgK

/-- Embeds AJV compiled with `configSchema` and `allErrors: true`: every
violated constraint of the document is reported. -/
def schemaErrors : Json → List AjvError
  | .obj fs => requiredErrors fs ++ additionalErrors fs ++ propertyErrors fs
  | _ => [⟨[], "must be object".data⟩]

/-- Formats one error as the source does:
`instancePath || '/'` followed by a space and the message. -/
def formatError (e : AjvError) : Str :=
  (if e.instancePath = [] then "/".data else e.instancePath) ++ " ".data ++ e.message

/-- Result record of `validateConfig`. -/
structure ValidationResult where
  valid : Bool
  errors : Option (List Str)

/-- State of one file on disk: absent, present but not well-formed JSON, or a
parsed JSON value. -/
inductive FileState where
  | missing
  | invalidJson
  | json (j : Json)

/-- Embeds `validateConfig` of `configValidator.ts`: a missing file and
malformed JSON each yield a distinct single-message failure; otherwise the
parsed document is checked against the schema and all violations reported. -/
def validateConfig (filePath : Str) (fs : FileState) : ValidationResult :=
  match fs with
  | .missing => ⟨false, some [("File not found: ".data ++ filePath)]⟩
  | .invalidJson => ⟨false, some ["Invalid JSON format.".data]⟩
  | .json j =>
      if schemaErrors j = [] then ⟨true, none⟩
      else ⟨false, some ((schemaErrors j).map formatError)⟩

/-- C1: for every pair `(project, version)` of non-empty strings of alphanumeric
characters and hyphens, and for any optional environment, parsing the basename
of the path produced by the address resolver recovers exactly the original
project and version: `parseFilename (basename (getConfigPath p v env)) = some (p, v)`. -/
theorem c1_resolve_parse_roundtrip (p v : Str) (env : Option Str)
    (hp0 : p ≠ []) (hpA : p.all isAlnumHyphen = true)
    (hv0 : v ≠ []) (hvA : v.all isAlnumHyphen = true) :
    parseFilename (basename (getConfigPath p v env)) = some (p, v) := by
  have hpc : ∀ c ∈ p, isAlnumHyphen c = true := List.all_eq_true.mp hpA
  have hvc : ∀ c ∈ v, isAlnumHyphen c = true := List.all_eq_true.mp hvA
  have hjson : ∀ c ∈ ".json".data, c ≠ '/' := by decide
  have hfn : ∀ c ∈ configFilename p v, c ≠ '/' := by
    intro c hc
    rw [configFilename] at hc
    rcases List.mem_append.mp hc with hc | hc
    · exact alnumHyphen_ne_slash (hpc c hc)
    · rcases List.mem_cons.mp hc with rfl | hc
      · decide
      · rcases List.mem_append.mp hc with hc | hc
        · exact alnumHyphen_ne_slash (hvc c hc)
        · exact hjson c hc
  rw [getConfigPath, basename_append hfn]
  rw [parseFilename, configFilename, parseAux_skip _ _ (fun c hc => alnumHyphen_ne_at (hpc c hc))]
  set rest := v ++ ".json".data with hrest
  have hlen : rest.length = v.length + 5 := by simp [hrest]
  have hstep : rest.length - 5 = v.length := by omega
  have htake : rest.take (rest.length - 5) = v := by
    rw [hstep, hrest, List.take_left]
  have hdrop : rest.drop (rest.length - 5) = ".json".data := by
    rw [hstep, hrest, List.drop_left]
  have hcond : atSplitOk p.reverse rest = true := by
    have h2 : noTerm p.reverse = true := by
      apply noTerm_of_alnumHyphen
      rw [List.all_eq_true] at *
      exact fun c hc => hpA c (List.mem_reverse.mp hc)
    have h3 : decide (6 ≤ rest.length) = true := by
      rw [decide_eq_true_eq, hlen]
      have : 1 ≤ v.length := List.length_pos.mpr hv0
      omega
    have h5 : noTerm (rest.take (rest.length - 5)) = true := by
      rw [htake]; exact noTerm_of_alnumHyphen hvA
    simp [atSplitOk, hdrop, h3, h5, h2, hp0]
  show parseAux (p.reverse ++ []) ('@' :: rest) = some (p, v)
  simp [parseAux, hcond, htake]

theorem c1_resolve_parse_roundtrip_witness :
    parseFilename (basename (getConfigPath "atlas".data "1-0-0".data
      (some "staging".data))) = some ("atlas".data, "1-0-0".data) :=
  c1_resolve_parse_roundtrip "atlas".data "1-0-0".data (some "staging".data)
    (by decide) (by decide) (by decide) (by decide)


theorem getField_isSome_of_mem {fs : List (Str × Json)} {k : Str}
    (h : k ∈ fs.map Prod.fst) : (getField fs k).isSome = true := by
  induction fs with
  | nil => simp at h
  | cons kv rest ih =>
    obtain ⟨k1, v1⟩ := kv
    rw [getField]
    by_cases hk : k1 = k
    · simp [hk]
    · simp only [List.map_cons, List.mem_cons] at h
      rcases h with h | h
      · exact absurd h.symm hk
      · simp [hk, ih h]

theorem strPropErr_eq_nil {fs : List (Str × Json)} {k : Str}
    (h : optSat Json.isStr (getField fs k) = true) : strPropErr fs k = [] := by
  cases hg : getField fs k with
  | none => simp [strPropErr, hg]
  | some v =>
    rw [hg] at h
    simp only [optSat] at h
    simp [strPropErr, hg, h]

theorem objPropErr_eq_nil {fs : List (Str × Json)} {k : Str}
    (h : optSat Json.isObj (getField fs k) = true) : objPropErr fs k = [] := by
  cases hg : getField fs k with
  | none => simp [objPropErr, hg]
  | some v =>
    rw [hg] at h
    simp only [optSat] at h
    simp [objPropErr, hg, h]

/-- C2: a document that is a JSON object with exactly the three top-level
fields `name` (string), `version` (string) and `config` (object) validates as
`{valid: true}`; a JSON-object document missing any required field, or carrying
an extra top-level field, yields `{valid: false}` with at least one error whose
location pointer is the root `/`. -/
theorem c2_schema_exact_fields :
    (∀ (fp : Str) (fs : List (Str × Json)),
        List.Perm (fs.map Prod.fst) requiredKeys →
        optSat Json.isStr (getField fs nameK) = true →
        optSat Json.isStr (getField fs verK) = true →
        optSat Json.isObj (getField fs cfgK) = true →
        validateConfig fp (.json (.obj fs)) = ⟨true, none⟩) ∧
    (∀ (fp : Str) (fs : List (Str × Json)),
        ((∃ k ∈ requiredKeys, getField fs k = none) ∨ (∃ kv ∈ fs, kv.1 ∉ requiredKeys)) →
        (validateConfig fp (.json (.obj fs))).valid = false ∧
        ∃ msgs, (validateConfig fp (.json (.obj fs))).errors = some msgs ∧
          ∃ m ∈ msgs, m.take 2 = "/ ".data) := by
  constructor
  · intro fp fs hperm hn hv hc
    have hreq : requiredErrors fs = [] := by
      rw [requiredErrors, List.filterMap_eq_nil_iff]
      intro k hk
      simp [getField_isSome_of_mem (hperm.symm.subset hk)]
    have haddl : additionalErrors fs = [] := by
      rw [additionalErrors, List.filterMap_eq_nil_iff]
      intro kv hkv
      have hin : kv.1 ∈ requiredKeys := hperm.subset (List.mem_map_of_mem Prod.fst hkv)
      simp [hin]
    have hprop : propertyErrors fs = [] := by
      rw [propertyErrors, strPropErr_eq_nil hn, strPropErr_eq_nil hv, objPropErr_eq_nil hc]
      rfl
    simp [validateConfig, schemaErrors, hreq, haddl, hprop]
  · intro fp fs hbad
    have hex : ∃ e ∈ schemaErrors (Json.obj fs), e.instancePath = [] := by
      rcases hbad with ⟨k, hk, hnone⟩ | ⟨kv, hkv, hout⟩
      · refine ⟨⟨[], "must have required property \x27".data ++ k ++ "\x27".data⟩, ?_, rfl⟩
        rw [schemaErrors]
        apply List.mem_append_left
        apply List.mem_append_left
        rw [requiredErrors]
        exact List.mem_filterMap.mpr ⟨k, hk, by simp [hnone]⟩
      · refine ⟨⟨[], "must NOT have additional properties".data⟩, ?_, rfl⟩
        rw [schemaErrors]
        apply List.mem_append_left
        apply List.mem_append_right
        rw [additionalErrors]
        exact List.mem_filterMap.mpr ⟨kv, hkv, by simp [hout]⟩
    obtain ⟨e, he, hroot⟩ := hex
    have hne : schemaErrors (Json.obj fs) ≠ [] := List.ne_nil_of_mem he
    refine ⟨by simp [validateConfig, hne], (schemaErrors (Json.obj fs)).map formatError,
      by simp [validateConfig, hne], formatError e, List.mem_map_of_mem _ he, ?_⟩
    simp only [formatError, hroot, if_pos]
    rfl

theorem c2_schema_exact_fields_witness :
    (validateConfig [] (.json (.obj
      [(nameK, .str "atlas".data), (verK, .str "1.0.0".data), (cfgK, .obj [])])) =
        ⟨true, none⟩) ∧
    ((validateConfig [] (.json (.obj
      [(nameK, .str "atlas".data), (cfgK, .obj []), ("extra".data, .null)]))).valid = false ∧
      ∃ msgs, (validateConfig [] (.json (.obj
        [(nameK, .str "atlas".data), (cfgK, .obj []), ("extra".data, .null)]))).errors =
          some msgs ∧ ∃ m ∈ msgs, m.take 2 = "/ ".data) :=
  ⟨c2_schema_exact_fields.1 [] _ (by decide) (by rfl) (by rfl) (by rfl),
   c2_schema_exact_fields.2 [] _ (Or.inl ⟨verK, by decide, rfl⟩)⟩

/-- C8: `validateConfig` is total over all file states — a missing file yields
`{valid: false}` with a distinct file-not-found message, and a file whose
content is not well-formed JSON yields `{valid: false}` with exactly the one
generic parse-error message, never a crash and never schema errors. -/
theorem c8_validate_total (fp : Str) :
    validateConfig fp .missing = ⟨false, some [("File not found: ".data ++ fp)]⟩ ∧
    validateConfig fp .invalidJson = ⟨false, some ["Invalid JSON format.".data]⟩ ∧
    ("File not found: ".data ++ fp) ≠ "Invalid JSON format.".data := by
  refine ⟨rfl, rfl, fun h => ?_⟩
  have h1 : ("File not found: ".data ++ fp).head? = some 'F' := rfl
  rw [h] at h1
  exact absurd h1 (by decide)

/-- Parsed contents of the `.corevrc.json` settings file (modelled as absent
or a parsed record). -/
structure RcData where
  api : Option Str
  token : Option Str

/-- Message of the error `getApiBase` throws when no API base is set. -/
def apiUnsetMsg : Str :=
  "API base URL not set. Please run \"corev init --api <url>\" first.".data

/-- Models `api.replace(/\/+$/, \x27\x27)`: every trailing slash removed. -/
def stripTrailingSlashes (s : Str) : Str :=
  (s.reverse.dropWhile (fun c => c == '/')).reverse

/-- Embeds `getApiBase` of `configService.ts`: `data.api` is truthy exactly
when present and non-empty; its value is returned with trailing slashes
stripped, and otherwise the unset-API error is thrown. -/
def getApiBase (rc : Option RcData) : Except Str Str :=
  match rc with
  | some d =>
      match d.api with
      | some a => if a = [] then .error apiUnsetMsg else .ok (stripTrailingSlashes a)
      | none => .error apiUnsetMsg
  | none => .error apiUnsetMsg

/-- Embeds `getToken`: `data.token || null` (an empty token is falsy). -/
def getToken (rc : Option RcData) : Option Str :=
  match rc with
  | some d =>
      match d.token with
      | some t => if t = [] then none else some t
      | none => none
  | none => none

/-- Whitespace removed by JavaScript `String.prototype.trim` (ASCII whitespace
plus no-break space and the byte-order mark). -/
def isJsWS (c : Char) : Bool :=
  c == ' ' || c == '\t' || c == '\n' || c == '\r' || c == '\x0b' || c == '\x0c' ||
    c == '\u00A0' || c == '\uFEFF'

/-- Models `s.trim()`. -/
def jsTrim (s : Str) : Str :=
  ((s.dropWhile isJsWS).reverse.dropWhile isJsWS).reverse

/-- Models `s.toLowerCase()` (character-wise lowercasing; the Unicode special
cases do not arise for the ASCII URLs at issue). -/
def toLowerStr (s : Str) : Str := s.map Char.toLower

/-- JavaScript truthiness of an optional string: absent or empty is falsy. -/
def jsTruthy : Option Str → Option Str
  | some s => if s = [] then none else some s
  | none => none

/-- Embeds the persistence phase of `init` (`init.ts`) on the effective
`api`/`token` values (after any prompting): exit 1 when both are falsy;
otherwise `saveApiBase(api.trim().toLowerCase())` rewrites the rc file to a
record holding only the api, then `saveToken(token.trim())` merges the token
into the existing record. -/
def init (rc : Option RcData) (apiOpt tokenOpt : Option Str) : Option RcData × Nat :=
  match jsTruthy apiOpt, jsTruthy tokenOpt with
  | none, none => (rc, 1)
  | ao, tk =>
      let rc1 : Option RcData :=
        match ao with
        | some s => some ⟨some (toLowerStr (jsTrim s)), none⟩
        | none => rc
      let rc2 : Option RcData :=
        match tk with
        | some s => some ⟨(match rc1 with | some d => d.api | none => none), some (jsTrim s)⟩
        | none => rc1
      (rc2, 0)

/-- The TypeScript `Configuration` interface: the declared shape of a remote
response and of a persisted document. -/
structure Configuration where
  name : Str
  version : Str
  config : Json

/-- The object `{name, version, config}` the commands persist. -/
def mkDoc (d : Configuration) : Json :=
  .obj [(nameK, .str d.name), (verK, .str d.version), (cfgK, d.config)]

/-- A rejected axios request: an HTTP error response carrying its status, or a
response-less network failure. -/
inductive AxiosFailure where
  | http (status : Nat)
  | network

/-- Terminal outcome of the push command. -/
inductive PushOutcome where
  | pushed
  | invalidFilename
  | schemaFailed (errors : List Str)
  | failedGeneric (msg : Str)

/-- Observable effects of one push invocation: the POST issued (URL and raw
body), if any, and the reported outcome. -/
structure PushResult where
  posted : Option (Str × Json)
  outcome : PushOutcome

/-- Embeds the `push` command (`push.ts`): read the API base, parse the
basename against `<project>@<version>.json`, load the file, validate it, and
only then POST the loaded payload verbatim to `<api>/configs/<project>`; each
failing step stops the command before the network call.  (The token and
environment request headers are not modelled; they affect no claimed
observable.) -/
def push (rc : Option RcData) (file : Str) (st : FileState) : PushResult :=
  match getApiBase rc with
  | .error m => ⟨none, .failedGeneric m⟩
  | .ok api =>
      match parseFilename (basename file) with
      | none => ⟨none, .invalidFilename⟩
      | some (project, _) =>
          match st with
          | .missing => ⟨none, .failedGeneric ("File not found: ".data ++ file)⟩
          | .invalidJson => ⟨none, .failedGeneric "Unexpected token in JSON".data⟩
          | .json payload =>
              let vr := validateConfig file (.json payload)
              if vr.valid then
                ⟨some (api ++ "/configs/".data ++ project, payload), .pushed⟩
              else ⟨none, .schemaFailed (vr.errors.getD [])⟩

/-- Warning printed by `pull` when the persisted document fails validation. -/
def pullInvalidMsg : Str := "Config pulled but failed schema validation.".data

/-- Observable effects of one pull invocation.  `pull` never calls
`process.exit`, so its exit code is always 0. -/
structure PullResult where
  requestUrl : Option Str
  writes : List (Str × Json)
  warnings : List Str
  failed : Option Str
  exitCode : Nat

/-- Embeds the `pull` command (`pull.ts`): GET `<api>/configs/<project>/latest`,
persist the returned document at the address derived from the returned
version and the environment option, then validate what was written; a
validation failure is only a warning. -/
def pull (rc : Option RcData) (project : Str) (env : Option Str)
    (resp : Except AxiosFailure Configuration) : PullResult :=
  match getApiBase rc with
  | .error m => ⟨none, [], [], some m, 0⟩
  | .ok api =>
      let url := api ++ "/configs/".data ++ project ++ "/latest".data
      match resp with
      | .error _ => ⟨some url, [], [], some "Failed to fetch config.".data, 0⟩
      | .ok d =>
          let fp := getConfigPath project d.version env
          let doc := mkDoc d
          let vr := validateConfig fp (.json doc)
          ⟨some url, [(fp, doc)], if vr.valid then [] else [pullInvalidMsg], none, 0⟩

/-- The mismatch warning `checkout` prints. -/
def checkoutMismatchMsg (project version name fetched : Str) : Str :=
  "Mismatched config received. Expected project \"".data ++ project ++
    "\" version \"".data ++ version ++ "\", got \"".data ++ name ++
    "\" version \"".data ++ fetched ++ "\".".data

/-- The validation warning `checkout` prints. -/
def checkoutInvalidMsg : Str := "Config checked out but failed schema validation.".data

/-- Failure report of `checkout`: an axios failure carries the optional
response status and whether the 404 existence hint was printed; anything else
is reported generically. -/
inductive CheckoutFailure where
  | api (status : Option Nat) (hint404 : Bool)
  | generic (msg : Str)

/-- Observable effects of one checkout invocation. -/
structure CheckoutResult where
  requestUrl : Option Str
  warnings : List Str
  writes : List (Str × Json)
  failure : Option CheckoutFailure
  exitCode : Nat

/-- Embeds the `checkout` command (`checkout.ts`): GET
`<api>/configs/<project>/<version>`; on success warn (non-fatally) when the
returned name or version differs from the requested pair, persist at the
address derived from the returned version, and validate; on an axios failure
report the status, print the existence hint exactly for status 404, write
nothing, and exit 1. -/
def checkout (rc : Option RcData) (project version : Str)
    (resp : Except AxiosFailure Configuration) : CheckoutResult :=
  match getApiBase rc with
  | .error m => ⟨none, [], [], some (.generic m), 1⟩
  | .ok api =>
      let url := api ++ "/configs/".data ++ project ++ "/".data ++ version
      match resp with
      | .error (.http s) => ⟨some url, [], [], some (.api (some s) (s == 404)), 1⟩
      | .error .network => ⟨some url, [], [], some (.api none false), 1⟩
      | .ok d =>
          let fp := getConfigPath project d.version none
          let doc := mkDoc d
          let vr := validateConfig fp (.json doc)
          ⟨some url,
            (if d.name != project || d.version != version then
              [checkoutMismatchMsg project version d.name d.version]
            else []) ++ (if vr.valid then [] else [checkoutInvalidMsg]),
            [(fp, doc)], none, 0⟩

/-- Terminal outcome of the revert command. -/
inductive RevertOutcome where
  | reverted
  | fileNotFound
  | validationFailed
  | abortedByUser
  | failedGeneric (msg : Str)
  | transferFailed (status : Option Nat)

/-- Observable effects of one revert invocation: the POST issued (URL and
payload), if any, the outcome, and the exit code. -/
structure RevertResult where
  posted : Option (Str × Json)
  outcome : RevertOutcome
  exitCode : Nat

/-- JavaScript strict inequality `payload.k !== s` for a field of a parsed
document against a string (a non-string field is always `!==` a string). -/
def jsFieldNe (j : Json) (k s : Str) : Bool :=
  match j with
  | .obj fs =>
      match getField fs k with
      | some (.str t) => t != s
      | _ => true
  | _ => true

/-- The confirmation answer counts as affirmative exactly when
`answer.trim().toLowerCase() === \x27y\x27`. -/
def affirmative (answer : Str) : Bool := toLowerStr (jsTrim answer) == "y".data

/-- Mismatch gate of `revert`: the loaded payload's embedded name or version
differs from the requested pair. -/
def revertMismatch (payload : Json) (project version : Str) : Bool :=
  jsFieldNe payload nameK project || jsFieldNe payload verK version

/-- Embeds the environment-aware `revert` command (`revert.ts`): resolve the
local address; fail fast (exit 1, no request) when the file is absent; read
the API base; abort (exit 1, no request) when schema validation fails; on an
embedded name/version mismatch ask for confirmation and abort (exit 0, no
request) unless the trimmed lowercased answer is exactly `y`; only then POST
the loaded payload to `<api>/configs/<project>`. -/
def revert (rc : Option RcData) (project version : Str) (env : Option Str)
    (st : FileState) (answer : Str) (postResp : Except AxiosFailure Unit) : RevertResult :=
  let fp := getConfigPath project version env
  match st with
  | .missing => ⟨none, .fileNotFound, 1⟩
  | st =>
      match getApiBase rc with
      | .error m => ⟨none, .failedGeneric m, 1⟩
      | .ok api =>
          let vr := validateConfig fp st
          if vr.valid = false then ⟨none, .validationFailed, 1⟩
          else
            match st with
            | .json payload =>
                if revertMismatch payload project version && !(affirmative answer) then
                  ⟨none, .abortedByUser, 0⟩
                else
                  let url := api ++ "/configs/".data ++ project
                  match postResp with
                  | .ok _ => ⟨some (url, payload), .reverted, 0⟩
                  | .error (.http s) => ⟨some (url, payload), .transferFailed (some s), 1⟩
                  | .error .network => ⟨some (url, payload), .transferFailed none, 1⟩
            | _ => ⟨none, .validationFailed, 1⟩

/-- C3: a file whose basename does not match `<project>@<version>.json` makes
push fail with the invalid-filename report, and a file that parses but fails
schema validation makes push fail with the schema-validation report; in both
cases no POST is ever issued (`posted = none` holds even when the API base is
unset and the failure is generic instead). -/
theorem c3_push_fails_before_network :
    (∀ (rc : Option RcData) (file : Str) (st : FileState),
        parseFilename (basename file) = none →
        (push rc file st).posted = none ∧
        (∀ a, getApiBase rc = .ok a → (push rc file st).outcome = .invalidFilename)) ∧
    (∀ (rc : Option RcData) (file : Str) (pv : Str × Str) (j : Json),
        parseFilename (basename file) = some pv →
        (validateConfig file (.json j)).valid = false →
        (push rc file (.json j)).posted = none ∧
        (∀ a, getApiBase rc = .ok a →
          (push rc file (.json j)).outcome =
            .schemaFailed ((validateConfig file (.json j)).errors.getD []))) := by
  constructor
  · intro rc file st hparse
    cases hapi : getApiBase rc with
    | error m =>
        exact ⟨by simp [push, hapi], fun a ha => by cases ha⟩
    | ok api => exact ⟨by simp [push, hapi, hparse], fun a ha => by simp [push, hapi, hparse]⟩
  · intro rc file pv j hparse hval
    obtain ⟨p1, v1⟩ := pv
    cases hapi : getApiBase rc with
    | error m =>
        exact ⟨by simp [push, hapi], fun a ha => by cases ha⟩
    | ok api =>
        exact ⟨by simp [push, hapi, hparse, hval],
          fun a ha => by simp [push, hapi, hparse, hval]⟩

theorem c3_push_fails_before_network_witness :
    ((push (some ⟨some "http://x".data, none⟩) "bad-config.json".data
        (.json (.obj []))).posted = none ∧
      (push (some ⟨some "http://x".data, none⟩) "bad-config.json".data
        (.json (.obj []))).outcome = .invalidFilename) ∧
    ((push (some ⟨some "http://x".data, none⟩) "atlas@1.0.0.json".data
        (.json (.obj []))).posted = none ∧
      (push (some ⟨some "http://x".data, none⟩) "atlas@1.0.0.json".data
        (.json (.obj []))).outcome =
          .schemaFailed ((validateConfig "atlas@1.0.0.json".data
            (.json (.obj []))).errors.getD [])) := by
  have h1 := c3_push_fails_before_network.1 (some ⟨some "http://x".data, none⟩)
    "bad-config.json".data (.json (.obj [])) (by decide)
  have h2 := c3_push_fails_before_network.2 (some ⟨some "http://x".data, none⟩)
    "atlas@1.0.0.json".data ("atlas".data, "1.0.0".data) (.obj []) (by decide) (by rfl)
  exact ⟨⟨h1.1, h1.2 _ rfl⟩, ⟨h2.1, h2.2 _ rfl⟩⟩

/-- C10: push uses only the project component of the parsed filename — for a
schema-valid JSON file whose embedded `version` field differs from the
filename's version, push still POSTs the loaded content verbatim to
`<api>/configs/<project>` and reports plain success, with no mismatch warning
or error of any kind. -/
theorem c10_push_ignores_filename_version
    (rc : Option RcData) (api file project fver cv : Str) (fields : List (Str × Json))
    (hapi : getApiBase rc = .ok api)
    (hparse : parseFilename (basename file) = some (project, fver))
    (hvalid : (validateConfig file (.json (.obj fields))).valid = true)
    (_hcv : getField fields verK = some (.str cv))
    (_hne : cv ≠ fver) :
    push rc file (.json (.obj fields)) =
      ⟨some (api ++ "/configs/".data ++ project, .obj fields), .pushed⟩ := by
  simp [push, hapi, hparse, hvalid]

theorem c10_push_ignores_filename_version_witness :
    push (some ⟨some "http://x".data, none⟩) "atlas@9.9.9.json".data
        (.json (.obj [(nameK, .str "atlas".data), (verK, .str "1.0.0".data),
          (cfgK, .obj [])])) =
      ⟨some ("http://x".data ++ "/configs/".data ++ "atlas".data,
        .obj [(nameK, .str "atlas".data), (verK, .str "1.0.0".data), (cfgK, .obj [])]),
        .pushed⟩ :=
  c10_push_ignores_filename_version _ _ _ _ "9.9.9".data "1.0.0".data _
    rfl (by decide) (by rfl) rfl (by decide)

/-- C7: pull persists the returned document exactly once, at the canonical
address derived from the server-returned version — under
`configs/<project>/env/<env>/` when a non-empty environment is supplied and
under `configs/<project>/` otherwise — and the two addresses never coincide. -/
theorem c7_pull_env_address
    (rc : Option RcData) (api project e : Str) (d : Configuration)
    (hapi : getApiBase rc = .ok api) (he : e ≠ []) :
    (pull rc project (some e) (.ok d)).writes =
      [(getConfigPath project d.version (some e), mkDoc d)] ∧
    (pull rc project none (.ok d)).writes =
      [(getConfigPath project d.version none, mkDoc d)] ∧
    getConfigPath project d.version (some e) =
      pjoin (pjoin (pjoin (pjoin CONFIG_DIR project) "env".data) e)
        (configFilename project d.version) ∧
    getConfigPath project d.version (some e) ≠ getConfigPath project d.version none := by
  refine ⟨by simp [pull, hapi], by simp [pull, hapi], by simp [getConfigPath, baseDirOf, he], ?_⟩
  intro hcontra
  have hlen := congrArg List.length hcontra
  have hepos : 0 < e.length := List.length_pos.mpr he
  simp [getConfigPath, baseDirOf, pjoin, he, configFilename, CONFIG_DIR] at hlen
  omega

theorem c7_pull_env_address_witness :
    (pull (some ⟨some "http://x".data, none⟩) "atlas".data (some "staging".data)
        (.ok ⟨"atlas".data, "1.0.0".data, .obj []⟩)).writes =
      [(getConfigPath "atlas".data "1.0.0".data (some "staging".data),
        mkDoc ⟨"atlas".data, "1.0.0".data, .obj []⟩)] ∧
    getConfigPath "atlas".data "1.0.0".data (some "staging".data) ≠
      getConfigPath "atlas".data "1.0.0".data none := by
  have h := c7_pull_env_address (some ⟨some "http://x".data, none⟩)
    (stripTrailingSlashes "http://x".data) "atlas".data "staging".data
    ⟨"atlas".data, "1.0.0".data, .obj []⟩ rfl (by decide)
  exact ⟨h.1, h.2.2.2⟩

/-- C4: a checkout answered by HTTP 404 reports the failure with status 404
together with the existence hint, exits 1, and writes nothing locally; any
other status is reported without the hint, and a response-less network failure
carries no status at all. -/
theorem c4_checkout_404
    (rc : Option RcData) (api project version : Str)
    (hapi : getApiBase rc = .ok api) :
    (checkout rc project version (.error (.http 404)) =
      ⟨some (api ++ "/configs/".data ++ project ++ "/".data ++ version), [], [],
        some (.api (some 404) true), 1⟩) ∧
    (∀ s : Nat, s ≠ 404 →
      (checkout rc project version (.error (.http s))).failure =
        some (.api (some s) false)) ∧
    (checkout rc project version (.error .network)).failure = some (.api none false) := by
  refine ⟨by simp [checkout, hapi], fun s hs => ?_, by simp [checkout, hapi]⟩
  have hbeq : (s == 404) = false := by simp [hs]
  simp [checkout, hapi, hbeq]

theorem c4_checkout_404_witness :
    checkout (some ⟨some "http://x".data, none⟩) "atlas".data "9.9.9".data
        (.error (.http 404)) =
      ⟨some (stripTrailingSlashes "http://x".data ++ "/configs/".data ++ "atlas".data ++
        "/".data ++ "9.9.9".data), [], [], some (.api (some 404) true), 1⟩ :=
  (c4_checkout_404 (some ⟨some "http://x".data, none⟩)
    (stripTrailingSlashes "http://x".data) "atlas".data "9.9.9".data rfl).1

/-- C6 counterexample: the claim that pull surfaces a name mismatch as a
warning is false — against a remote answering name `other` for requested
project `atlas`, pull persists the document yet emits no warning at all. -/
theorem c6_counterexample :
    (pull (some ⟨some "http://x".data, none⟩) "atlas".data none
        (.ok ⟨"other".data, "1.0.0".data, .obj []⟩)).warnings = [] ∧
    (pull (some ⟨some "http://x".data, none⟩) "atlas".data none
        (.ok ⟨"other".data, "1.0.0".data, .obj []⟩)).writes ≠ [] ∧
    "other".data ≠ "atlas".data := by
  refine ⟨rfl, fun h => List.cons_ne_nil _ _ h, by decide⟩

/-- C6 (amended): checkout surfaces a name/version mismatch as a non-fatal
warning and still persists the received document (exit 0); pull performs no
mismatch check at all — it persists the received document without any mismatch
warning (its only possible warning is the schema-validation one) and never
aborts because of a mismatch. -/
theorem c6_mismatch_handling :
    (∀ (rc : Option RcData) (api project version : Str) (d : Configuration),
        getApiBase rc = .ok api →
        (d.name ≠ project ∨ d.version ≠ version) →
        checkoutMismatchMsg project version d.name d.version ∈
          (checkout rc project version (.ok d)).warnings ∧
        (checkout rc project version (.ok d)).writes =
          [(getConfigPath project d.version none, mkDoc d)] ∧
        (checkout rc project version (.ok d)).exitCode = 0) ∧
    (∀ (rc : Option RcData) (api project : Str) (env : Option Str) (d : Configuration),
        getApiBase rc = .ok api →
        (pull rc project env (.ok d)).writes =
          [(getConfigPath project d.version env, mkDoc d)] ∧
        (pull rc project env (.ok d)).exitCode = 0 ∧
        ((pull rc project env (.ok d)).warnings = [] ∨
          (pull rc project env (.ok d)).warnings = [pullInvalidMsg])) := by
  constructor
  · intro rc api project version d hapi hmis
    have hb : (d.name != project || d.version != version) = true := by
      rcases hmis with h | h <;> simp [h]
    refine ⟨?_, by simp [checkout, hapi], by simp [checkout, hapi]⟩
    simp only [checkout, hapi, hb, if_true]
    exact List.mem_cons_self _ _
  · intro rc api project env d hapi
    refine ⟨by simp [pull, hapi], by simp [pull, hapi], ?_⟩
    by_cases hv : (validateConfig (getConfigPath project d.version env)
        (.json (mkDoc d))).valid = true
    · exact Or.inl (by simp [pull, hapi, hv])
    · exact Or.inr (by simp [pull, hapi, hv])

theorem c6_mismatch_handling_witness :
    (checkoutMismatchMsg "atlas".data "1.0.0".data "other".data "1.0.0".data ∈
      (checkout (some ⟨some "http://x".data, none⟩) "atlas".data "1.0.0".data
        (.ok ⟨"other".data, "1.0.0".data, .obj []⟩)).warnings) ∧
    (pull (some ⟨some "http://x".data, none⟩) "atlas".data none
        (.ok ⟨"other".data, "1.0.0".data, .obj []⟩)).exitCode = 0 := by
  have h1 := (c6_mismatch_handling.1 (some ⟨some "http://x".data, none⟩)
    (stripTrailingSlashes "http://x".data) "atlas".data "1.0.0".data
    ⟨"other".data, "1.0.0".data, .obj []⟩ rfl (Or.inl (by decide))).1
  have h2 := (c6_mismatch_handling.2 (some ⟨some "http://x".data, none⟩)
    (stripTrailingSlashes "http://x".data) "atlas".data none
    ⟨"other".data, "1.0.0".data, .obj []⟩ rfl).2.1
  exact ⟨h1, h2⟩

/-- Helper: when the API base is readable, the file validates, and the
mismatch gate does not fire, revert transmits the payload (whatever the remote
answers). -/
theorem revert_posted_of_pass {rc : Option RcData} {project version : Str}
    {env : Option Str} {payload : Json} {answer : Str}
    {postResp : Except AxiosFailure Unit} {api : Str}
    (hapi : getApiBase rc = .ok api)
    (hv : (validateConfig (getConfigPath project version env) (.json payload)).valid = true)
    (hg2 : (revertMismatch payload project version && !(affirmative answer)) = false) :
    (revert rc project version env (.json payload) answer postResp).posted =
      some (api ++ "/configs/".data ++ project, payload) := by
  cases postResp with
  | ok u => simp [revert, hapi, hv, hg2]
  | error e => cases e <;> simp [revert, hapi, hv, hg2]

/-- C5: revert POSTs to the remote exactly when the API base is readable, the
local file exists as parseable JSON passing schema validation, and either the
embedded name/version match the request or the confirmation answer is
affirmative; a missing file fails fast (exit 1) with no request, and a
mismatch answered non-affirmatively aborts (exit 0) with no request. -/
theorem c5_revert_gating
    (rc : Option RcData) (project version : Str) (env : Option Str)
    (st : FileState) (answer : Str) (postResp : Except AxiosFailure Unit) :
    ((revert rc project version env st answer postResp).posted ≠ none ↔
      ((∃ a, getApiBase rc = .ok a) ∧
        (validateConfig (getConfigPath project version env) st).valid = true ∧
        (∃ payload, st = .json payload ∧
          (revertMismatch payload project version = false ∨ affirmative answer = true)))) ∧
    (st = .missing →
      revert rc project version env st answer postResp = ⟨none, .fileNotFound, 1⟩) ∧
    (∀ payload, st = .json payload →
      (∃ a, getApiBase rc = .ok a) →
      (validateConfig (getConfigPath project version env) st).valid = true →
      revertMismatch payload project version = true →
      affirmative answer = false →
      revert rc project version env st answer postResp = ⟨none, .abortedByUser, 0⟩) := by
  refine ⟨?_, ?_, ?_⟩
  · cases st with
    | missing => simp [revert, validateConfig]
    | invalidJson =>
        cases hapi : getApiBase rc with
        | error m => simp [revert, hapi]
        | ok api => simp [revert, hapi, validateConfig]
    | json payload =>
        cases hapi : getApiBase rc with
        | error m => simp [revert, hapi]
        | ok api =>
            by_cases hv : (validateConfig (getConfigPath project version env)
                (.json payload)).valid = true
            · by_cases hm : revertMismatch payload project version = true
              · by_cases ha : affirmative answer = true
                · have hg2 : (revertMismatch payload project version &&
                      !(affirmative answer)) = false := by simp [hm, ha]
                  rw [revert_posted_of_pass hapi hv hg2]
                  constructor
                  · intro _
                    exact ⟨⟨api, rfl⟩, hv, payload, rfl, Or.inr ha⟩
                  · intro _
                    simp
                · have haf : affirmative answer = false := by
                    cases hb : affirmative answer
                    · rfl
                    · exact absurd hb ha
                  have hg : (revertMismatch payload project version &&
                      !(affirmative answer)) = true := by simp [hm, haf]
                  simp [revert, hapi, hv, hg, hm, haf]
              · have hmf : revertMismatch payload project version = false := by
                  cases hb : revertMismatch payload project version
                  · rfl
                  · exact absurd hb hm
                have hg2 : (revertMismatch payload project version &&
                    !(affirmative answer)) = false := by simp [hmf]
                rw [revert_posted_of_pass hapi hv hg2]
                constructor
                · intro _
                  exact ⟨⟨api, rfl⟩, hv, payload, rfl, Or.inl hmf⟩
                · intro _
                  simp
            · have hv2 : (validateConfig (getConfigPath project version env)
                  (.json payload)).valid = false := by
                cases hb : (validateConfig (getConfigPath project version env)
                    (.json payload)).valid
                · rfl
                · exact absurd hb hv
              simp [revert, hapi, hv2]
  · intro h
    subst h
    rfl
  · intro payload hst hex hv hm ha
    subst hst
    obtain ⟨a, hapi⟩ := hex
    have hg : (revertMismatch payload project version && !(affirmative answer)) = true := by
      simp [hm, ha]
    simp [revert, hapi, hv, hg]

theorem c5_revert_gating_witness :
    (revert (some ⟨some "http://x".data, none⟩) "atlas".data "1.0.0".data none
      .missing "y".data (.ok ())) = ⟨none, .fileNotFound, 1⟩ ∧
    (revert (some ⟨some "http://x".data, none⟩) "atlas".data "1.0.0".data none
      (.json (.obj [(nameK, .str "atlas".data), (verK, .str "1.0.1".data),
        (cfgK, .obj [])])) "n".data (.ok ())) = ⟨none, .abortedByUser, 0⟩ :=
  ⟨(c5_revert_gating (some ⟨some "http://x".data, none⟩) "atlas".data "1.0.0".data
      none .missing "y".data (.ok ())).2.1 rfl,
    (c5_revert_gating (some ⟨some "http://x".data, none⟩) "atlas".data "1.0.0".data
      none (.json (.obj [(nameK, .str "atlas".data), (verK, .str "1.0.1".data),
        (cfgK, .obj [])])) "n".data (.ok ())).2.2 _ rfl
      ⟨stripTrailingSlashes "http://x".data, rfl⟩ (by rfl) (by rfl) (by rfl)⟩

/-- C9: the API base URL is silently normalized â init persists it lowercased
and trimmed, getApiBase returns the stored value with every trailing slash
stripped (it only throws when no api value is set), and a subsequent pull
builds its request URL from exactly this normalized form. -/
theorem c9_api_base_normalization
    (rc : Option RcData) (a : Str) (tokenOpt : Option Str)
    (ha : a ≠ []) (hta : jsTrim a ≠ []) :
    getApiBase (init rc (some a) tokenOpt).1 =
      .ok (stripTrailingSlashes (toLowerStr (jsTrim a))) ∧
    (∀ (project : Str) (env : Option Str) (resp : Except AxiosFailure Configuration),
      (pull (init rc (some a) tokenOpt).1 project env resp).requestUrl =
        some (stripTrailingSlashes (toLowerStr (jsTrim a)) ++ "/configs/".data ++
          project ++ "/latest".data)) := by
  have hn : toLowerStr (jsTrim a) ≠ [] := by
    intro h
    apply hta
    have := congrArg List.length h
    simpa [toLowerStr] using this
  have hrc : (init rc (some a) tokenOpt).1.isSome = true ∧
      getApiBase (init rc (some a) tokenOpt).1 =
        .ok (stripTrailingSlashes (toLowerStr (jsTrim a))) := by
    have hja : jsTruthy (some a) = some a := by simp [jsTruthy, ha]
    cases htok : jsTruthy tokenOpt with
    | none => exact ⟨by simp [init, hja, htok], by simp [init, hja, htok, getApiBase, hn]⟩
    | some t => exact ⟨by simp [init, hja, htok], by simp [init, hja, htok, getApiBase, hn]⟩
  refine ⟨hrc.2, fun project env resp => ?_⟩
  cases resp with
  | ok d => simp [pull, hrc.2]
  | error e => simp [pull, hrc.2]

theorem c9_api_base_normalization_witness :
    getApiBase (init none (some " HTTP://Example.com/ ".data) none).1 =
      .ok (stripTrailingSlashes (toLowerStr (jsTrim " HTTP://Example.com/ ".data))) ∧
    (pull (init none (some " HTTP://Example.com/ ".data) none).1 "atlas".data none
        (.ok ⟨"atlas".data, "1.0.0".data, .obj []⟩)).requestUrl =
      some (stripTrailingSlashes (toLowerStr (jsTrim " HTTP://Example.com/ ".data)) ++
        "/configs/".data ++ "atlas".data ++ "/latest".data) :=
  ⟨(c9_api_base_normalization none " HTTP://Example.com/ ".data none
      (by decide) (by decide)).1,
    (c9_api_base_normalization none " HTTP://Example.com/ ".data none
      (by decide) (by decide)).2 "atlas".data none (.ok ⟨"atlas".data, "1.0.0".data, .obj []⟩)⟩

end Corev
